import Mathlib

/-!
Verification of the DHT walk engine (`p2p/discover/walk.go` and the route
strategies of the same package) against its specification.

The Go code is shallowly embedded: node identifiers are natural numbers
(256-bit values in the source), `map[enode.ID]bool` sets become `Finset ℕ`,
the Go `int` counter `walk.queries` becomes `ℤ`, and a `nil` entry of a
response slice becomes `none` in a `List (Option Node)`.  Route strategies
mutate themselves in the source; here every route operation returns its new
state.  The injectable random source of the random route is embedded as
explicit choice arguments (the index picked by each `Intn` call); theorems
quantify over all in-range choices, which covers every outcome of the
random source.
-/

namespace DiscoverWalk


/-- Node is a peer descriptor; the walk engine only ever reads its 256-bit
identifier, so the embedding keeps just the `id` field. -/
structure Node where
  id : ℕ
  deriving DecidableEq, Repr

/-- Table models the routing-table collaborator as consumed by the walk
itself: the walk reads the local node identifier via `tab.self().ID()`.
The node-producing table operations (`readRandomNodes`, `findnodeByID`) are
external and appear as nondeterministic inputs of the route semantics, and
`trackRequest` is an output event of `handleResponse`. -/
structure Table where
  selfId : ℕ
  deriving DecidableEq, Repr

/-- Modelled from the spec: α, the Kademlia concurrency parameter, is a
system-wide constant equal to 3 (`alpha` is declared in the discover
package outside the provided sources). -/
def alpha : ℤ := 3

/-- Modelled from the spec: `bucketSize` (k) = 16. -/
def bucketSize : ℕ := 16

/-- Modelled from the spec: `lookupRequestLimit` (v5 FINDNODE distance
fan-out) = 3. -/
def lookupRequestLimit : ℕ := 3

/-- Capacity of the random route's reservoir buffer
(`const randomRouteBuffer = 32`). -/
def randomRouteBuffer : ℕ := 32

/-- Query embeds `type query` of walk.go: a destination node and an opaque
target, completed by the transport with a response slice (entries may be
nil, hence `Option Node`) and an optional error (only its presence matters,
hence `Bool`). -/
structure Query (τ : Type) where
  target : τ
  node : Node
  err : Bool
  resp : List (Option Node)

/-- Walk embeds `type walk` of walk.go.  The scratch `replyBuffer` is not
persistent state (it is rebuilt from scratch by every `handleResponse`
call), so it does not appear as a field; `handleResponse` returns its final
content inside the track event. -/
structure Walk (ρ : Type) where
  tab : Table
  seen : Finset ℕ
  route : ρ
  queries : ℤ
  inited : Bool

/-- TrackEvent records the `w.tab.trackRequest(q.node, success,
w.replyBuffer)` call issued at the end of `handleResponse`. -/
structure TrackEvent where
  node : Node
  success : Bool
  novel : List Node

/-- RouteOps embeds the `route` interface of walk.go for a deterministic
strategy: each method returns the updated strategy state. -/
structure RouteOps (ρ τ : Type) where
  init : Table → ρ → Bool × ρ
  nextHop : ρ → Option Node × τ × ρ
  addFoundNodes : ρ → List Node → ρ
  result : ρ → List Node

/-- newWalk embeds `newWalk`: fresh seen set seeded with the local node's
identifier, zero queries in flight, not yet inited. -/
def newWalk (tab : Table) (r : ρ) : Walk ρ :=
  { tab := tab, seen := {tab.selfId}, route := r, queries := 0, inited := false }

/-- advanceInited embeds the part of `walk.advance` after the init block:
the α throttle check, the `nextHop` call, and the construction of the
emitted query.  The returned `Bool` is the `done` flag, computed as
`w.queries == 0` after the potential increment, exactly as in the source. -/
def advanceInited (O : RouteOps ρ τ) (w : Walk ρ) : Option (Node × τ) × Bool × Walk ρ :=
  if alpha ≤ w.queries then (none, false, w)
  else
    match O.nextHop w.route with
    | (some n, t, r') =>
      let w' : Walk ρ := { w with route := r', queries := w.queries + 1 }
      (some (n, t), decide (w'.queries = 0), w')
    | (none, _, r') =>
      let w' : Walk ρ := { w with route := r' }
      (none, decide (w'.queries = 0), w')

/-- advance embeds `walk.advance`.  When the walk is not yet inited it
calls `route.init`; on failure it returns `(nil, true)` without setting
`w.inited` (the source records `inited` only on success). -/
def advance (O : RouteOps ρ τ) (w : Walk ρ) : Option (Node × τ) × Bool × Walk ρ :=
  if w.inited then advanceInited O w
  else
    match O.init w.tab w.route with
    | (false, r') => (none, true, { w with route := r' })
    | (true, r') => advanceInited O { w with route := r', inited := true }

/-- processResponse embeds the de-duplication loop of `walk.handleResponse`:
for each response entry, a non-nil node whose identifier is not yet in
`seen` is inserted into `seen` and appended to the reply buffer.  Returns
the final seen set and the reply buffer. -/
def processResponse (seen : Finset ℕ) : List (Option Node) → Finset ℕ × List Node
  | [] => (seen, [])
  | none :: rest => processResponse seen rest
  | some n :: rest =>
    if n.id ∈ seen then processResponse seen rest
    else
      let p := processResponse (insert n.id seen) rest
      (p.1, n :: p.2)

/-- handleResponse embeds `walk.handleResponse`: de-duplicate the response,
forward the novel nodes to `route.addFoundNodes`, decrement the in-flight
counter, and report liveness with `success := len(q.resp) > 0` (the error
field of the query is not consulted). -/
def handleResponse (O : RouteOps ρ τ) (w : Walk ρ) (q : Query τ) : Walk ρ × TrackEvent :=
  let p := processResponse w.seen q.resp
  let r' := O.addFoundNodes w.route p.2
  ({ w with seen := p.1, route := r', queries := w.queries - 1 },
   { node := q.node, success := decide (0 < q.resp.length), novel := p.2 })

/-- fixedRoute embeds the test strategy `fixedRoute`: a fixed list of hop
nodes handed out in order; `init` always succeeds, found nodes are ignored,
and the result is nil. -/
def fixedRoute : RouteOps (List Node) Unit where
  init := fun _ r => (true, r)
  nextHop := fun r =>
    match r with
    | [] => (none, (), [])
    | n :: rest => (some n, (), rest)
  addFoundNodes := fun r _ => r
  result := fun _ => []

/-- respIds collects the identifiers of the non-nil entries of a response
slice, in order. -/
def respIds (resp : List (Option Node)) : List ℕ :=
  resp.filterMap (fun o => o.map Node.id)

/-- RouteSem is the relational counterpart of the `route` interface, used
by the trace semantics: strategies whose methods consult a random source or
the external table are nondeterministic from the walk's point of view. -/
structure RouteSem (ρ τ : Type) where
  initR : Table → ρ → Bool × ρ → Prop
  nextHopR : ρ → Option Node × τ × ρ → Prop
  addR : ρ → List Node → ρ → Prop

/-- toSem views a deterministic strategy as a (singleton) relational one. -/
def RouteOps.toSem (O : RouteOps ρ τ) : RouteSem ρ τ where
  initR := fun tab r out => out = O.init tab r
  nextHopR := fun r out => out = O.nextHop r
  addR := fun r ns r' => r' = O.addFoundNodes r ns

/-- InitStep describes the init block at the top of `walk.advance`: if the
walk is already inited nothing happens; otherwise `route.init` runs, and
only on success is `w.inited` set.  The boolean is false exactly on the
early-return path `return nil, true` of the source. -/
inductive InitStep (R : RouteSem ρ τ) : Walk ρ → Bool × Walk ρ → Prop where
  | already : ∀ w, w.inited = true → InitStep R w (true, w)
  | ok : ∀ w r', w.inited = false → R.initR w.tab w.route (true, r') →
      InitStep R w (true, { w with route := r', inited := true })
  | fail : ∀ w r', w.inited = false → R.initR w.tab w.route (false, r') →
      InitStep R w (false, { w with route := r' })

/-- AdvanceRel is `walk.advance` over a relational route: one constructor
per return path of the source (failed init, α throttle, hop emitted, no
hop).  The emitted value is `(query?, done)`. -/
inductive AdvanceRel (R : RouteSem ρ τ) : Walk ρ → Option (Node × τ) × Bool → Walk ρ → Prop where
  | initFail : ∀ w w1, InitStep R w (false, w1) → AdvanceRel R w (none, true) w1
  | throttled : ∀ w w1, InitStep R w (true, w1) → alpha ≤ w1.queries →
      AdvanceRel R w (none, false) w1
  | hop : ∀ w w1 n t r', InitStep R w (true, w1) → w1.queries < alpha →
      R.nextHopR w1.route (some n, t, r') →
      AdvanceRel R w (some (n, t), decide (w1.queries + 1 = 0))
        { w1 with route := r', queries := w1.queries + 1 }
  | noHop : ∀ w w1 t r', InitStep R w (true, w1) → w1.queries < alpha →
      R.nextHopR w1.route (none, t, r') →
      AdvanceRel R w (none, decide (w1.queries = 0)) { w1 with route := r' }

/-- HandleRel is `walk.handleResponse` over a relational route: the
de-duplication pass is the deterministic `processResponse`, the
`addFoundNodes` call is relational, and the track event carries
`success = len(q.resp) > 0` together with the forwarded reply buffer. -/
def HandleRel (R : RouteSem ρ τ) (w : Walk ρ) (q : Query τ) (out : Walk ρ × TrackEvent) : Prop :=
  ∃ r', R.addR w.route (processResponse w.seen q.resp).2 r' ∧
    out = ({ w with seen := (processResponse w.seen q.resp).1, route := r',
                    queries := w.queries - 1 },
           { node := q.node, success := decide (0 < q.resp.length),
             novel := (processResponse w.seen q.resp).2 })

/-- Sys is a walk together with its environment bookkeeping: the queries
emitted but not yet handled, and ghost histories of the hops emitted, the
nodes forwarded to `addFoundNodes`, and the identifiers of non-nil
response entries handled so far. -/
structure Sys (ρ τ : Type) where
  walk : Walk ρ
  pending : List (Node × τ)
  hops : List Node
  forwarded : List Node
  responded : List ℕ

/-- SysStep: an interleaving step is either an `advance` call (its emitted
query, if any, joins the pending list) or a `handleResponse` call on some
pending query, whose response content and error flag are chosen freely by
the transport. -/
inductive SysStep (R : RouteSem ρ τ) : Sys ρ τ → Sys ρ τ → Prop where
  | adv : ∀ s out done w', AdvanceRel R s.walk (out, done) w' →
      SysStep R s { walk := w', pending := s.pending ++ out.toList,
                    hops := s.hops ++ out.toList.map Prod.fst,
                    forwarded := s.forwarded, responded := s.responded }
  | handle : ∀ s (i : ℕ) (hi : i < s.pending.length) (e : Bool) resp w' ev,
      HandleRel R s.walk
        { target := (s.pending.get ⟨i, hi⟩).2, node := (s.pending.get ⟨i, hi⟩).1,
          err := e, resp := resp } (w', ev) →
      SysStep R s { walk := w', pending := s.pending.eraseIdx i,
                    hops := s.hops, forwarded := s.forwarded ++ ev.novel,
                    responded := s.responded ++ respIds resp }

/-- initSys is the system right after `newWalk`: nothing pending, empty
histories. -/
def initSys (tab : Table) (r0 : ρ) : Sys ρ τ :=
  { walk := newWalk tab r0, pending := [], hops := [], forwarded := [], responded := [] }

/-- Reachable: all states obtainable from a fresh walk by interleavings of
`advance` and `handleResponse` in which every handled query was previously
emitted and not yet handled. -/
def Reachable (R : RouteSem ρ τ) (tab : Table) (r0 : ρ) (s : Sys ρ τ) : Prop :=
  Relation.ReflTransGen (SysStep R) (initSys tab r0) s

/-- Inv is the master invariant of reachable systems: the in-flight counter
mirrors the pending list, stays within `[0, α]`, is zero before a
successful init, the local identifier is always seen, forwarded nodes are
pairwise distinct, seen, and never the local node, and the seen set is
exactly the local identifier plus the handled non-nil response entries. -/
def Inv (tab : Table) (s : Sys ρ τ) : Prop :=
  s.walk.tab = tab ∧
  s.walk.queries = (s.pending.length : ℤ) ∧
  s.walk.queries ≤ alpha ∧
  (s.walk.inited = false → s.walk.queries = 0) ∧
  tab.selfId ∈ s.walk.seen ∧
  (s.forwarded.map Node.id).Nodup ∧
  (∀ n ∈ s.forwarded, n.id ∈ s.walk.seen) ∧
  (∀ n ∈ s.forwarded, n.id ≠ tab.selfId) ∧
  (∀ a ∈ s.walk.seen, a = tab.selfId ∨ a ∈ s.responded) ∧
  (∀ a ∈ s.responded, a ∈ s.walk.seen)

/-- unitRoute is a degenerate strategy used to instantiate trace theorems
at concrete inputs: init always succeeds and no hop is ever offered. -/
def unitRoute : RouteOps Unit Unit where
  init := fun _ r => (true, r)
  nextHop := fun r => (none, (), r)
  addFoundNodes := fun r _ => r
  result := fun _ => []

/-- failCountRoute is a strategy whose init always fails and counts its
invocations in the route state; it witnesses what `advance` does on the
failed-init path. -/
def failCountRoute : RouteOps ℕ Unit where
  init := fun _ c => (false, c + 1)
  nextHop := fun c => (none, (), c)
  addFoundNodes := fun c _ => c
  result := fun _ => []

/-- c9walk0 is the S1 scenario walk: fixed route `[N1, N2, N3, N4]`. -/
def c9walk0 : Walk (List Node) := newWalk ⟨0⟩ [⟨1⟩, ⟨2⟩, ⟨3⟩, ⟨4⟩]

/-- c9query builds the completed query for a hop of the S1 scenario (the
transport of the scenario returns no nodes). -/
def c9query (n : Node) : Query Unit := ⟨(), n, false, []⟩

/-- c9adv1 is the first advance of the S1 scenario. -/
def c9adv1 : Option (Node × Unit) × Bool × Walk (List Node) := advance fixedRoute c9walk0

/-- c9adv2 is the second advance of the S1 scenario. -/
def c9adv2 : Option (Node × Unit) × Bool × Walk (List Node) := advance fixedRoute c9adv1.2.2

/-- c9adv3 is the third advance of the S1 scenario. -/
def c9adv3 : Option (Node × Unit) × Bool × Walk (List Node) := advance fixedRoute c9adv2.2.2

/-- c9h1 completes N3's query (out of order). -/
def c9h1 : Walk (List Node) × TrackEvent := handleResponse fixedRoute c9adv3.2.2 (c9query ⟨3⟩)

/-- c9h2 completes N1's query. -/
def c9h2 : Walk (List Node) × TrackEvent := handleResponse fixedRoute c9h1.1 (c9query ⟨1⟩)

/-- c9h3 completes N2's query. -/
def c9h3 : Walk (List Node) × TrackEvent := handleResponse fixedRoute c9h2.1 (c9query ⟨2⟩)

/-- c9adv4 is the fourth advance of the S1 scenario. -/
def c9adv4 : Option (Node × Unit) × Bool × Walk (List Node) := advance fixedRoute c9h3.1

/-- c9h4 completes N4's query. -/
def c9h4 : Walk (List Node) × TrackEvent := handleResponse fixedRoute c9adv4.2.2 (c9query ⟨4⟩)

/-- c9adv5 is the final advance of the S1 scenario. -/
def c9adv5 : Option (Node × Unit) × Bool × Walk (List Node) := advance fixedRoute c9h4.1

/-- logDist models `enode.LogDist` (declared outside the provided
sources); per the spec it is `256 − leading_zero_bits(a XOR b)` for
256-bit identifiers, i.e. the bit length of `a XOR b`, and `0` when
`a = b`. -/
def logDist (a b : ℕ) : ℕ := Nat.size (a ^^^ b)

/-- lookupDistancesLoop embeds the loop of `lookupDistances`
(`for i := 1; len(dists) < lookupRequestLimit; i++`), whose body appends
`td+i` when `td+i <= 256` and `td-i` when `td-i > 0`.  The loop always
terminates within a few iterations; the fuel argument only bounds the
recursion and is chosen large enough to never run out. -/
def lookupDistancesLoop (td : ℕ) : ℕ → ℕ → List ℕ → List ℕ
  | _, 0, dists => dists
  | i, fuel + 1, dists =>
    if dists.length < lookupRequestLimit then
      let d1 := if td + i ≤ 256 then dists ++ [td + i] else dists
      let d2 := if i < td then d1 ++ [td - i] else d1
      lookupDistancesLoop td (i + 1) fuel d2
    else dists

/-- lookupDistances embeds `lookupDistances`: it seeds the list with
`td = logdist(target, dest)` unconditionally and then runs the loop. -/
def lookupDistances (target dest : ℕ) : List ℕ :=
  lookupDistancesLoop (logDist target dest) 1 300 [logDist target dest]

/-- specLookupDistances is the distance policy in the spec's words: the
sequence `[td, td+1, td−1, td+2, td−2, …]` with elements outside `(0, 256]`
removed, capped at `lookupRequestLimit` entries (a horizon of 256 offsets
covers every element that can lie in the interval). -/
def specLookupDistances (td : ℕ) : List ℕ :=
  (([td] ++ (List.range 256).flatMap (fun j => [td + (j + 1), td - (j + 1)])).filter
      (fun d => decide (0 < d) && decide (d ≤ 256))).take lookupRequestLimit

/-- RandomState embeds the shared state of `randomRoute`: the reservoir
buffer.  The injectable random source is embedded as explicit choice
arguments of the operations (each `Intn` call's outcome). -/
structure RandomState where
  buf : List Node
  deriving DecidableEq, Repr

/-- init embeds `randomRoute.init`: the buffer becomes the (up to 32)
nodes produced by `tab.readRandomNodes` — passed here as the argument
`ns` — and init succeeds iff at least one node was returned. -/
def RandomState.init (_r : RandomState) (ns : List Node) : Bool × RandomState :=
  (decide (0 < ns.length), ⟨ns⟩)

/-- nextNode embeds `randomRoute.nextNode`: on an empty buffer return nil;
otherwise remove and return the entry at the randomly chosen index `i`
(`i < len(buf)` for every real execution). -/
def RandomState.nextNode (r : RandomState) (i : ℕ) : Option Node × RandomState :=
  if r.buf.isEmpty then (none, r)
  else (r.buf[i]?, ⟨r.buf.eraseIdx i⟩)

/-- add embeds `randomRoute.add`: append while below capacity, otherwise
overwrite the randomly chosen slot (`slot < len(buf)` for every real
execution). -/
def RandomState.add (r : RandomState) (n : Node) (slot : ℕ) : RandomState :=
  if r.buf.length < randomRouteBuffer then ⟨r.buf ++ [n]⟩
  else ⟨r.buf.set slot n⟩

/-- addFoundNodes embeds `randomRoute.addFoundNodes`: nothing for an empty
reply, the single node for a singleton reply, and otherwise the nodes at
two randomly chosen distinct indices `i1 ≠ i2` (the source redraws `i2`
until it differs from `i1`); `s1`, `s2` are the eviction slots of the two
`add` calls. -/
def RandomState.addFoundNodes (r : RandomState) (ns : List Node) (i1 i2 s1 s2 : ℕ) :
    RandomState :=
  match ns with
  | [] => r
  | [n] => r.add n s1
  | _ => (r.add (ns.getD i1 ⟨0⟩) s1).add (ns.getD i2 ⟨0⟩) s2

/-- LookupState embeds `lookupRoute`: the opaque per-query payload, the
identifier the nearest-list is sorted towards (`l.list.target`), the
nearest-list entries, and the asked set. -/
structure LookupState where
  target : ℕ
  targetId : ℕ
  entries : List Node
  asked : Finset ℕ
  deriving DecidableEq

/-- insertByDist inserts a node into a list kept ascending by log-distance
to the target, after any entry at equal distance (insertion order breaks
ties). -/
def insertByDist (targetId : ℕ) : List Node → Node → List Node
  | [], n => [n]
  | e :: es, n =>
    if logDist n.id targetId < logDist e.id targetId then n :: e :: es
    else e :: insertByDist targetId es n

/-- Modelled from the spec: `nodesByDistance.push` (declared outside the
provided sources) — insertion into the bounded nearest-list is idempotent
on id, keeps ascending distance order with ties broken by insertion
order, and drops elements beyond the k-th. -/
def push (targetId k : ℕ) (entries : List Node) (n : Node) : List Node :=
  if entries.any (fun e => decide (e.id = n.id)) then entries
  else (insertByDist targetId entries n).take k

/-- lookupInit embeds `lookupRoute.init`: fails on an empty closest list,
otherwise resets the asked set and adopts the list. -/
def lookupInit (l : LookupState) (closest : List Node) : Bool × LookupState :=
  if closest.isEmpty then (false, l)
  else (true, { l with asked := ∅, entries := closest })

/-- lookupNextHop embeds `lookupRoute.nextHop`: the first entry not yet
asked is marked asked and returned with the target payload. -/
def lookupNextHop (l : LookupState) : Option Node × ℕ × LookupState :=
  match l.entries.find? (fun n => decide (n.id ∉ l.asked)) with
  | some n => (some n, l.target, { l with asked := insert n.id l.asked })
  | none => (none, l.target, l)

/-- lookupAddFoundNodes embeds `lookupRoute.addFoundNodes`: push every
reply node into the nearest-list with capacity `bucketSize`. -/
def lookupAddFoundNodes (l : LookupState) (ns : List Node) : LookupState :=
  { l with entries := ns.foldl (fun es n => push l.targetId bucketSize es n) l.entries }

/-- lookupSem is the lookup route as a relational strategy; `reports`
describes which nodes the external `tab.findnodeByID` can return. -/
def lookupSem (reports : Node → Prop) : RouteSem LookupState ℕ where
  initR := fun _ l out =>
    ∃ closest : List Node, (∀ n ∈ closest, reports n) ∧ closest.length ≤ bucketSize ∧
      out = lookupInit l closest
  nextHopR := fun l out => out = lookupNextHop l
  addR := fun l ns l' => l' = lookupAddFoundNodes l ns

/-- randomSemV4 is the discv4 random route as a relational strategy: the
hop is drawn at a random in-range index, and the target payload is a
freshly drawn random value when a hop is present, the zero value
otherwise; `reports` describes which nodes `tab.readRandomNodes` can
return. -/
def randomSemV4 (reports : Node → Prop) : RouteSem RandomState ℕ where
  initR := fun _ r out =>
    ∃ ns : List Node, (∀ n ∈ ns, reports n) ∧ ns.length ≤ randomRouteBuffer ∧
      out = r.init ns
  nextHopR := fun r out =>
    ∃ i t : ℕ, (r.buf ≠ [] → i < r.buf.length) ∧
      out = ((r.nextNode i).1, (if (r.nextNode i).1 = none then 0 else t), (r.nextNode i).2)
  addR := fun r ns r' =>
    ∃ i1 i2 s1 s2 : ℕ, (2 ≤ ns.length → i1 < ns.length ∧ i2 < ns.length ∧ i1 ≠ i2) ∧
      r' = r.addFoundNodes ns i1 i2 s1 s2

/-- randomSemV5 is the discv5 random route as a relational strategy: like
v4 but the target payload is the fixed furthest-bucket list. -/
def randomSemV5 (reports : Node → Prop) : RouteSem RandomState (List ℕ) where
  initR := fun _ r out =>
    ∃ ns : List Node, (∀ n ∈ ns, reports n) ∧ ns.length ≤ randomRouteBuffer ∧
      out = r.init ns
  nextHopR := fun r out =>
    ∃ i : ℕ, (r.buf ≠ [] → i < r.buf.length) ∧
      out = ((r.nextNode i).1, [256, 255, 254, 253], (r.nextNode i).2)
  addR := fun r ns r' =>
    ∃ i1 i2 s1 s2 : ℕ, (2 ≤ ns.length → i1 < ns.length ∧ i2 < ns.length ∧ i1 ≠ i2) ∧
      r' = r.addFoundNodes ns i1 i2 s1 s2

/-- RoutePres packages the facts needed to propagate a state predicate of
a route through a walk: every operation preserves it provided the nodes
fed in avoid the local identifier, and hops produced under it avoid the
local identifier. -/
structure RoutePres (R : RouteSem ρ τ) (tab : Table) (P : ρ → Prop) : Prop where
  pres_init : ∀ r ok r', P r → R.initR tab r (ok, r') → P r'
  pres_hop : ∀ r n t r', P r → R.nextHopR r (n, t, r') → P r'
  hop_not_self : ∀ r m t r', P r → R.nextHopR r (some m, t, r') → m.id ≠ tab.selfId
  pres_add : ∀ r ns r', P r → (∀ n ∈ ns, n.id ≠ tab.selfId) → R.addR r ns r' → P r'

/-- The de-duplication pass only ever inserts into the seen set. -/
theorem processResponse_seen_mono (resp : List (Option Node)) :
    ∀ seen : Finset ℕ, seen ⊆ (processResponse seen resp).1 := by
  induction resp with
  | nil => intro seen; simp [processResponse]
  | cons o rest ih =>
    intro seen
    match o with
    | none => simpa [processResponse] using ih seen
    | some n =>
      by_cases h : n.id ∈ seen
      · simpa [processResponse, h] using ih seen
      · simp only [processResponse, if_neg h]
        exact (Finset.subset_insert _ _).trans (ih (insert n.id seen))

/-- Unfolding equation: a nil entry contributes nothing to `respIds`. -/
theorem respIds_cons_none (rest : List (Option Node)) :
    respIds (none :: rest) = respIds rest := rfl

/-- Unfolding equation: a non-nil entry contributes its identifier. -/
theorem respIds_cons_some (n : Node) (rest : List (Option Node)) :
    respIds (some n :: rest) = n.id :: respIds rest := rfl

/-- Membership in the seen set after de-duplication: the old seen set plus
the identifiers of the non-nil response entries. -/
theorem mem_processResponse_seen (resp : List (Option Node)) :
    ∀ (seen : Finset ℕ) (a : ℕ),
      a ∈ (processResponse seen resp).1 ↔ a ∈ seen ∨ a ∈ respIds resp := by
  induction resp with
  | nil => intro seen a; simp [processResponse, respIds]
  | cons o rest ih =>
    intro seen a
    match o with
    | none => simpa [processResponse, respIds_cons_none] using ih seen a
    | some n =>
      by_cases h : n.id ∈ seen
      · simp only [processResponse, if_pos h, respIds_cons_some, List.mem_cons]
        rw [ih seen a]
        constructor
        · intro ha
          rcases ha with h1 | h1
          · exact Or.inl h1
          · exact Or.inr (Or.inr h1)
        · intro ha
          rcases ha with h1 | h1 | h1
          · exact Or.inl h1
          · exact Or.inl (h1 ▸ h)
          · exact Or.inr h1
      · simp only [processResponse, if_neg h, respIds_cons_some, List.mem_cons]
        rw [ih (insert n.id seen) a]
        simp only [Finset.mem_insert]
        tauto

/-- Every node of the reply buffer is a non-nil response entry whose
identifier was not in the seen set at the start of the call. -/
theorem processResponse_novel_mem (resp : List (Option Node)) :
    ∀ (seen : Finset ℕ) (n : Node), n ∈ (processResponse seen resp).2 →
      some n ∈ resp ∧ n.id ∉ seen := by
  induction resp with
  | nil => intro seen n h; simp [processResponse] at h
  | cons o rest ih =>
    intro seen n h
    match o with
    | none =>
      simp only [processResponse] at h
      obtain ⟨h1, h2⟩ := ih seen n h
      exact ⟨List.mem_cons_of_mem _ h1, h2⟩
    | some m =>
      by_cases hm : m.id ∈ seen
      · simp only [processResponse, if_pos hm] at h
        obtain ⟨h1, h2⟩ := ih seen n h
        exact ⟨List.mem_cons_of_mem _ h1, h2⟩
      · simp only [processResponse, if_neg hm] at h
        rcases List.mem_cons.1 h with h1 | h1
        · subst h1; exact ⟨List.mem_cons_self _ _, hm⟩
        · obtain ⟨h1', h2⟩ := ih (insert m.id seen) n h1
          exact ⟨List.mem_cons_of_mem _ h1', fun hc => h2 (Finset.mem_insert_of_mem hc)⟩

/-- The reply buffer never repeats an identifier. -/
theorem processResponse_novel_nodup (resp : List (Option Node)) :
    ∀ seen : Finset ℕ, ((processResponse seen resp).2.map Node.id).Nodup := by
  induction resp with
  | nil => intro seen; simp [processResponse]
  | cons o rest ih =>
    intro seen
    match o with
    | none => simpa [processResponse] using ih seen
    | some n =>
      by_cases h : n.id ∈ seen
      · simpa [processResponse, h] using ih seen
      · simp only [processResponse, if_neg h, List.map_cons, List.nodup_cons]
        refine ⟨?_, ih (insert n.id seen)⟩
        intro hc
        rcases List.mem_map.1 hc with ⟨m, hm, hid⟩
        have := (processResponse_novel_mem rest (insert n.id seen) m hm).2
        exact this (hid ▸ Finset.mem_insert_self _ _)

/-- Every node of the reply buffer ends up in the final seen set. -/
theorem processResponse_novel_sub_seen (resp : List (Option Node)) :
    ∀ (seen : Finset ℕ) (n : Node), n ∈ (processResponse seen resp).2 →
      n.id ∈ (processResponse seen resp).1 := by
  intro seen n h
  have hm := processResponse_novel_mem resp seen n h
  rw [mem_processResponse_seen]
  right
  exact List.mem_filterMap.2 ⟨some n, hm.1, rfl⟩

/-- Identifiers listed by `respIds` are in the final seen set. -/
theorem respIds_sub_processResponse_seen (resp : List (Option Node)) (seen : Finset ℕ)
    (a : ℕ) (h : a ∈ respIds resp) : a ∈ (processResponse seen resp).1 := by
  rw [mem_processResponse_seen]; exact Or.inr h

/-- InitStep never changes the seen set, the counter or the table, and on
the success path the walk ends up inited. -/
theorem initStep_effects {R : RouteSem ρ τ} {w : Walk ρ} {b : Bool} {w1 : Walk ρ}
    (h : InitStep R w (b, w1)) :
    w1.seen = w.seen ∧ w1.queries = w.queries ∧ w1.tab = w.tab ∧
      (b = true → w1.inited = true) ∧ (b = false → w1.inited = false) := by
  cases h with
  | already hw => exact ⟨rfl, rfl, rfl, fun _ => hw, fun hc => by simp at hc⟩
  | ok r' hw hi => exact ⟨rfl, rfl, rfl, fun _ => rfl, fun hc => by simp at hc⟩
  | fail r' hw hi => exact ⟨rfl, rfl, rfl, fun hc => by simp at hc, fun _ => hw⟩

/-- On the failed-init path the walk was not inited before the call. -/
theorem initStep_fail_pre {R : RouteSem ρ τ} {w : Walk ρ} {w1 : Walk ρ}
    (h : InitStep R w (false, w1)) : w.inited = false := by
  cases h with
  | fail r' hw hi => exact hw

/-- The fresh system satisfies the invariant. -/
theorem inv_initSys (tab : Table) (r0 : ρ) : Inv tab (initSys (τ := τ) tab r0) := by
  refine ⟨rfl, rfl, by norm_num [initSys, newWalk, alpha], fun _ => rfl, ?_, ?_, ?_, ?_, ?_, ?_⟩
  · simp [initSys, newWalk]
  · simp [initSys]
  · simp [initSys]
  · simp [initSys]
  · intro a ha
    simp only [initSys, newWalk, Finset.mem_singleton] at ha
    exact Or.inl ha
  · simp [initSys]

/-- One step preserves the invariant. -/
theorem inv_step {R : RouteSem ρ τ} {tab : Table} {s s' : Sys ρ τ}
    (hinv : Inv tab s) (hstep : SysStep R s s') : Inv tab s' := by
  obtain ⟨htab, hcount, hle, hinited, hself, hnodup, hfwseen, hfwself, hseen, hresp⟩ := hinv
  cases hstep with
  | adv out done w' hadv =>
    cases hadv with
    | initFail w1 hinit =>
      obtain ⟨hs, hq, ht, _, hi⟩ := initStep_effects hinit
      refine ⟨ht.trans htab, by simpa [hq, hs] using hcount, by simpa [hq] using hle,
        ?_, by simpa [hs] using hself, by simpa using hnodup,
        by simpa [hs] using hfwseen, by simpa using hfwself,
        by simpa [hs] using hseen, by simpa [hs] using hresp⟩
      intro _
      rw [hq]
      simpa using hinited (initStep_fail_pre hinit)
    | throttled w1 hinit hl =>
      obtain ⟨hs, hq, ht, hi, _⟩ := initStep_effects hinit
      refine ⟨ht.trans htab, by simpa [hq, hs] using hcount, by simpa [hq] using hle,
        ?_, by simpa [hs] using hself, by simpa using hnodup,
        by simpa [hs] using hfwseen, by simpa using hfwself,
        by simpa [hs] using hseen, by simpa [hs] using hresp⟩
      intro hc
      rw [hi rfl] at hc
      simp at hc
    | hop w1 n t r' hinit hlt hnext =>
      obtain ⟨hs, hq, ht, hi, _⟩ := initStep_effects hinit
      refine ⟨ht.trans htab, ?_, ?_, ?_, by simpa [hs] using hself, by simpa using hnodup,
        by simpa [hs] using hfwseen, by simpa using hfwself,
        by simpa [hs] using hseen, by simpa [hs] using hresp⟩
      · simp only [Option.toList_some, List.length_append, List.length_cons,
          List.length_nil]
        rw [hq, hcount]
        push_cast
        ring
      · show w1.queries + 1 ≤ alpha
        omega
      · intro hc
        rw [hi rfl] at hc
        simp at hc
    | noHop w1 t r' hinit hlt hnext =>
      obtain ⟨hs, hq, ht, hi, _⟩ := initStep_effects hinit
      refine ⟨ht.trans htab, by simpa [hq, hs] using hcount, by simpa [hq] using hle,
        ?_, by simpa [hs] using hself, by simpa using hnodup,
        by simpa [hs] using hfwseen, by simpa using hfwself,
        by simpa [hs] using hseen, by simpa [hs] using hresp⟩
      intro hc
      rw [hi rfl] at hc
      simp at hc
  | handle i hi e resp w' ev hrel =>
    obtain ⟨r', _, hout⟩ := hrel
    have hw' : w' = { s.walk with seen := (processResponse s.walk.seen resp).1,
                                  route := r', queries := s.walk.queries - 1 } :=
      congrArg Prod.fst hout
    have hev : ev.novel = (processResponse s.walk.seen resp).2 :=
      congrArg (fun p => p.2.novel) hout
    have hlen : 1 ≤ s.pending.length := Nat.one_le_of_lt (Nat.lt_of_lt_of_le hi (le_refl _))
    have hseen_mono := processResponse_seen_mono resp s.walk.seen
    refine ⟨by simp [hw', htab], ?_, ?_, ?_, ?_, ?_, ?_, ?_, ?_, ?_⟩
    · simp only [hw', List.length_eraseIdx, if_pos hi]
      rw [hcount]
      have : (0 : ℕ) < s.pending.length := hlen
      push_cast [Nat.cast_sub hlen]
      ring
    · simp only [hw']
      omega
    · intro hc
      simp only [hw'] at hc
      have := hinited hc
      rw [hcount] at this
      have : s.pending.length = 0 := by exact_mod_cast this
      omega
    · simp only [hw']
      exact hseen_mono hself
    · simp only [List.map_append, List.nodup_append]
      refine ⟨hnodup, by rw [hev]; exact processResponse_novel_nodup resp s.walk.seen, ?_⟩
      intro a ha hb
      rcases List.mem_map.1 ha with ⟨m, hm, hma⟩
      rcases List.mem_map.1 hb with ⟨m', hm', hma'⟩
      rw [hev] at hm'
      have h2 := (processResponse_novel_mem resp s.walk.seen m' hm').2
      exact h2 (hma' ▸ hma ▸ hfwseen m hm)
    · intro n hn
      rcases List.mem_append.1 hn with h1 | h1
      · simp only [hw']
        exact hseen_mono (hfwseen n h1)
      · simp only [hw']
        rw [hev] at h1
        exact processResponse_novel_sub_seen resp s.walk.seen n h1
    · intro n hn
      rcases List.mem_append.1 hn with h1 | h1
      · exact hfwself n h1
      · rw [hev] at h1
        have h2 := (processResponse_novel_mem resp s.walk.seen n h1).2
        intro hc
        exact h2 (hc ▸ hself)
    · intro a ha
      simp only [hw'] at ha
      rcases (mem_processResponse_seen resp s.walk.seen a).1 ha with h1 | h1
      · rcases hseen a h1 with h2 | h2
        · exact Or.inl h2
        · exact Or.inr (List.mem_append.2 (Or.inl h2))
      · exact Or.inr (List.mem_append.2 (Or.inr h1))
    · intro a ha
      simp only [hw']
      rcases List.mem_append.1 ha with h1 | h1
      · exact hseen_mono (hresp a h1)
      · exact respIds_sub_processResponse_seen resp s.walk.seen a h1

/-- Every reachable system satisfies the invariant. -/
theorem reachable_inv {R : RouteSem ρ τ} {tab : Table} {r0 : ρ} {s : Sys ρ τ}
    (h : Reachable R tab r0 s) : Inv tab s := by
  induction h with
  | refl => exact inv_initSys tab r0
  | tail _ hstep ih => exact inv_step ih hstep

/-- C1: in every reachable state of any walk, `0 ≤ queries ≤ α`; `advance`
emits a query only when `queries < α` and then increments the counter by
one; `handleResponse` decrements the counter by exactly one. -/
theorem claim_C1_queries_in_flight_bounds (R : RouteSem ρ τ) (tab : Table) (r0 : ρ) :
    (∀ s : Sys ρ τ, Reachable R tab r0 s →
      0 ≤ s.walk.queries ∧ s.walk.queries ≤ alpha) ∧
    (∀ s : Sys ρ τ, Reachable R tab r0 s →
      ∀ nt done w', AdvanceRel R s.walk (some nt, done) w' →
        s.walk.queries < alpha ∧ w'.queries = s.walk.queries + 1) ∧
    (∀ (w : Walk ρ) (q : Query τ) (out : Walk ρ × TrackEvent),
      HandleRel R w q out → out.1.queries = w.queries - 1) := by
  refine ⟨?_, ?_, ?_⟩
  · intro s hs
    obtain ⟨_, hcount, hle, _⟩ := reachable_inv hs
    constructor
    · rw [hcount]
      exact_mod_cast Nat.zero_le _
    · exact hle
  · intro s hs nt done w' hadv
    cases hadv with
    | hop w1 n t r' hinit hlt hnext =>
      obtain ⟨_, hq, _⟩ := initStep_effects hinit
      exact ⟨hq ▸ hlt, by simp [hq]⟩
  · intro w q out hrel
    obtain ⟨r', _, hout⟩ := hrel
    have := congrArg (fun p => p.1.queries) hout
    simpa using this

/-- Witness for C1 at a concrete route, table and trace: the bound at the
initial state, the increment on a concrete emitted query, and the
decrement on a concrete handled response. -/
theorem claim_C1_queries_in_flight_bounds_witness :
    (0 ≤ (initSys (ρ := Unit) (τ := Unit) ⟨0⟩ ()).walk.queries ∧
      (initSys (ρ := Unit) (τ := Unit) ⟨0⟩ ()).walk.queries ≤ alpha) ∧
    ((handleResponse unitRoute (newWalk ⟨0⟩ ()) ⟨(), ⟨5⟩, false, []⟩).1.queries =
      (newWalk (ρ := Unit) ⟨0⟩ ()).queries - 1) := by
  constructor
  · exact (claim_C1_queries_in_flight_bounds unitRoute.toSem ⟨0⟩ ()).1 _
      Relation.ReflTransGen.refl
  · exact (claim_C1_queries_in_flight_bounds unitRoute.toSem ⟨0⟩ ()).2.2
      (newWalk ⟨0⟩ ()) ⟨(), ⟨5⟩, false, []⟩ _ ⟨(), rfl, rfl⟩

/-- C2 as amended: in every reachable state, an identifier is in `seen` iff
it is the local node's identifier or it appeared as a non-nil entry of a
handled response.  (Hop nodes emitted by `advance` are not inserted into
`seen` by the walk.) -/
theorem claim_C2_seen_characterization (R : RouteSem ρ τ) (tab : Table) (r0 : ρ) :
    ∀ s : Sys ρ τ, Reachable R tab r0 s →
      ∀ a : ℕ, a ∈ s.walk.seen ↔ (a = tab.selfId ∨ a ∈ s.responded) := by
  intro s hs a
  obtain ⟨_, _, _, _, hself, _, _, _, hseen, hresp⟩ := reachable_inv hs
  constructor
  · exact hseen a
  · intro h
    rcases h with h | h
    · exact h ▸ hself
    · exact hresp a h

/-- Witness for C2's amended characterization at the initial state of a
concrete walk. -/
theorem claim_C2_seen_characterization_witness :
    (0 : ℕ) ∈ (initSys (ρ := Unit) (τ := Unit) ⟨0⟩ ()).walk.seen ↔
      ((0 : ℕ) = (Table.mk 0).selfId ∨
        (0 : ℕ) ∈ (initSys (ρ := Unit) (τ := Unit) ⟨0⟩ ()).responded) :=
  claim_C2_seen_characterization unitRoute.toSem ⟨0⟩ () _ Relation.ReflTransGen.refl 0

/-- Counterexample to C2 as stated: the first `advance` of a walk over the
fixed route `[N1]` returns N1 as a hop, yet N1's identifier is not a
member of `seen` afterwards — `advance` never inserts hops into `seen`. -/
theorem claim_C2_counterexample :
    (advance fixedRoute (newWalk ⟨0⟩ [⟨1⟩])).1 = some (⟨1⟩, ()) ∧
      (1 : ℕ) ∉ ((advance fixedRoute (newWalk ⟨0⟩ [⟨1⟩])).2.2).seen := by
  decide

/-- C5: across a walk's lifetime no identifier is forwarded to
`route.addFoundNodes` twice, and every forwarded node stems from a non-nil
response entry that was unseen at the start of its `handleResponse` call
(nil entries are dropped by the de-duplication pass). -/
theorem claim_C5_forward_at_most_once (R : RouteSem ρ τ) (tab : Table) (r0 : ρ) :
    (∀ s : Sys ρ τ, Reachable R tab r0 s → (s.forwarded.map Node.id).Nodup) ∧
    (∀ (w : Walk ρ) (q : Query τ) (out : Walk ρ × TrackEvent), HandleRel R w q out →
      ∀ n ∈ out.2.novel, some n ∈ q.resp ∧ n.id ∉ w.seen) := by
  constructor
  · intro s hs
    obtain ⟨_, _, _, _, _, hnodup, _⟩ := reachable_inv hs
    exact hnodup
  · intro w q out hrel n hn
    obtain ⟨r', _, hout⟩ := hrel
    have hnov : out.2.novel = (processResponse w.seen q.resp).2 :=
      congrArg (fun p => p.2.novel) hout
    rw [hnov] at hn
    exact processResponse_novel_mem q.resp w.seen n hn

/-- Witness for C5 at the initial state of a concrete walk and a concrete
handled response containing a nil entry and a duplicate. -/
theorem claim_C5_forward_at_most_once_witness :
    ((initSys (ρ := Unit) (τ := Unit) ⟨0⟩ ()).forwarded.map Node.id).Nodup ∧
      ∀ n ∈ (handleResponse unitRoute (newWalk ⟨0⟩ ())
          ⟨(), ⟨5⟩, false, [none, some ⟨7⟩, some ⟨7⟩]⟩).2.novel,
        some n ∈ [none, some (Node.mk 7), some ⟨7⟩] ∧ n.id ∉ (newWalk (ρ := Unit) ⟨0⟩ ()).seen := by
  constructor
  · exact (claim_C5_forward_at_most_once unitRoute.toSem ⟨0⟩ ()).1 _ Relation.ReflTransGen.refl
  · exact (claim_C5_forward_at_most_once unitRoute.toSem ⟨0⟩ ()).2
      (newWalk ⟨0⟩ ()) ⟨(), ⟨5⟩, false, [none, some ⟨7⟩, some ⟨7⟩]⟩ _ ⟨(), rfl, rfl⟩

/-- C10: from any reachable state, an `advance` that emits a query reports
`done = false`; and `done = true` implies no query was emitted and the
in-flight counter is zero (before and after the call). -/
theorem claim_C10_done_excludes_query (R : RouteSem ρ τ) (tab : Table) (r0 : ρ) :
    ∀ s : Sys ρ τ, Reachable R tab r0 s →
      ∀ out done w', AdvanceRel R s.walk (out, done) w' →
        (out ≠ none → done = false) ∧
        (done = true → out = none ∧ s.walk.queries = 0 ∧ w'.queries = 0) := by
  intro s hs out done w' hadv
  obtain ⟨_, hcount, _, hinited, _⟩ := reachable_inv hs
  have hpos : 0 ≤ s.walk.queries := by
    rw [hcount]; exact_mod_cast Nat.zero_le _
  cases hadv with
  | initFail w1 hinit =>
    obtain ⟨_, hq, _⟩ := initStep_effects hinit
    have h0 : s.walk.queries = 0 := hinited (initStep_fail_pre hinit)
    exact ⟨fun hc => absurd rfl hc, fun _ => ⟨rfl, h0, by rw [hq, h0]⟩⟩
  | throttled w1 hinit hl =>
    exact ⟨fun hc => absurd rfl hc, fun hc => by simp at hc⟩
  | hop w1 n t r' hinit hlt hnext =>
    obtain ⟨_, hq, _⟩ := initStep_effects hinit
    have hne : ¬ (w1.queries + 1 = 0) := by rw [hq]; omega
    constructor
    · intro _
      simpa using hne
    · intro hc
      rw [decide_eq_true_iff] at hc
      exact absurd hc hne
  | noHop w1 t r' hinit hlt hnext =>
    obtain ⟨_, hq, _⟩ := initStep_effects hinit
    refine ⟨fun hc => absurd rfl hc, fun hc => ?_⟩
    rw [decide_eq_true_iff] at hc
    exact ⟨rfl, by rw [← hq]; exact hc, by simpa using hc⟩

/-- Witness for C10 at a concrete reachable state and a concrete `advance`
transition on the no-hop path. -/
theorem claim_C10_done_excludes_query_witness :
    ((none : Option (Node × Unit)) ≠ none →
      decide ((newWalk (ρ := Unit) ⟨0⟩ ()).queries = 0) = false) ∧
    (decide ((newWalk (ρ := Unit) ⟨0⟩ ()).queries = 0) = true →
      (none : Option (Node × Unit)) = none ∧
        (initSys (ρ := Unit) (τ := Unit) ⟨0⟩ ()).walk.queries = 0 ∧
        ({ newWalk (ρ := Unit) ⟨0⟩ () with route := (), inited := true } : Walk Unit).queries = 0) := by
  exact claim_C10_done_excludes_query unitRoute.toSem ⟨0⟩ () _ Relation.ReflTransGen.refl
    none (decide ((newWalk (ρ := Unit) ⟨0⟩ ()).queries = 0)) _
    (AdvanceRel.noHop _ _ () ()
      (InitStep.ok _ () rfl rfl) (by decide) rfl)

/-- advanceInited never changes the inited flag. -/
theorem advanceInited_inited (O : RouteOps ρ τ) (w : Walk ρ) :
    ((advanceInited O w).2.2).inited = w.inited := by
  unfold advanceInited
  split
  · rfl
  · rcases h : O.nextHop w.route with ⟨n, t, r'⟩
    cases n <;> simp [h]

/-- C3 as amended: when `route.init` returns false, the first `advance`
returns `(none, done = true)` but does not record the walk as inited —
`inited` stays false, so `route.init` runs again on every later `advance`
until it returns true; `inited` transitions false→true only upon a
successful init. -/
theorem claim_C3_failed_init (O : RouteOps ρ τ) (w : Walk ρ) (r' : ρ)
    (hw : w.inited = false) :
    (O.init w.tab w.route = (false, r') →
      advance O w = (none, true, { w with route := r' }) ∧
        ({ w with route := r' } : Walk ρ).inited = false) ∧
    (O.init w.tab w.route = (true, r') → ((advance O w).2.2).inited = true) := by
  constructor
  · intro hinit
    constructor
    · simp [advance, hw, hinit]
    · simpa using hw
  · intro hinit
    have : advance O w = advanceInited O { w with route := r', inited := true } := by
      simp [advance, hw, hinit]
    rw [this, advanceInited_inited]

/-- Witness for C3's amended statement: both the failing and the
succeeding init path at concrete inputs. -/
theorem claim_C3_failed_init_witness :
    (advance failCountRoute (newWalk ⟨0⟩ 0) =
        (none, true, { newWalk (ρ := ℕ) ⟨0⟩ 0 with route := 1 }) ∧
      ({ newWalk (ρ := ℕ) ⟨0⟩ 0 with route := 1 } : Walk ℕ).inited = false) ∧
    ((advance fixedRoute (newWalk ⟨0⟩ [])).2.2).inited = true := by
  constructor
  · exact (claim_C3_failed_init failCountRoute (newWalk ⟨0⟩ 0) 1 rfl).1 rfl
  · exact (claim_C3_failed_init fixedRoute (newWalk ⟨0⟩ []) [] rfl).2 rfl

/-- Counterexample to C3 as stated: after a first `advance` whose init
fails, the walk is not recorded as inited, and a second `advance` invokes
`route.init` again (the invocation counter reaches 2). -/
theorem claim_C3_counterexample :
    ((advance failCountRoute (newWalk ⟨0⟩ 0)).1 = none ∧
      (advance failCountRoute (newWalk ⟨0⟩ 0)).2.1 = true ∧
      ((advance failCountRoute (newWalk ⟨0⟩ 0)).2.2).inited = false) ∧
    ((advance failCountRoute ((advance failCountRoute (newWalk ⟨0⟩ 0)).2.2)).2.2).route = 2 := by
  decide

/-- C8 as amended: `handleResponse` always decrements the counter by one
and leaves `inited` untouched (it signals no termination); the success
flag reported to the table is true exactly when the response list is
non-empty; hence a failed query whose error was populated and whose
response is accordingly empty is reported with `success = false`. -/
theorem claim_C8_query_failure (O : RouteOps ρ τ) (w : Walk ρ) (q : Query τ) :
    ((handleResponse O w q).1.queries = w.queries - 1) ∧
    ((handleResponse O w q).2.success = true ↔ q.resp ≠ []) ∧
    ((handleResponse O w q).1.inited = w.inited) ∧
    (q.err = true → q.resp = [] → (handleResponse O w q).2.success = false) := by
  refine ⟨rfl, ?_, rfl, ?_⟩
  · simp [handleResponse, List.length_pos]
  · intro _ hr
    simp [handleResponse, hr]

/-- Witness for C8's amended statement: a concrete errored query with an
empty response is reported with `success = false` and decrements the
counter. -/
theorem claim_C8_query_failure_witness :
    (handleResponse unitRoute (newWalk ⟨0⟩ ()) ⟨(), ⟨9⟩, true, []⟩).2.success = false ∧
    (handleResponse unitRoute (newWalk ⟨0⟩ ()) ⟨(), ⟨9⟩, true, []⟩).1.queries =
      (newWalk (ρ := Unit) ⟨0⟩ ()).queries - 1 := by
  constructor
  · exact (claim_C8_query_failure unitRoute (newWalk ⟨0⟩ ()) ⟨(), ⟨9⟩, true, []⟩).2.2.2 rfl rfl
  · exact (claim_C8_query_failure unitRoute (newWalk ⟨0⟩ ()) ⟨(), ⟨9⟩, true, []⟩).1

/-- Counterexample to C8 as stated: a query whose error field was
populated but whose response list is non-empty is reported to the table
with `success = true` — the source computes success from the response
length alone and never consults the error field. -/
theorem claim_C8_counterexample :
    (⟨(), ⟨9⟩, true, [some ⟨7⟩]⟩ : Query Unit).err = true ∧
      (handleResponse unitRoute (newWalk ⟨0⟩ ())
        ⟨(), ⟨9⟩, true, [some ⟨7⟩]⟩).2.success = true := by
  decide

/-- C9: the S1 out-of-order scenario over the fixed route `[N1,N2,N3,N4]`
with α = 3: three advances emit N1, N2, N3 with done=false; after
completing them in the order N3, N1, N2 the next advance emits N4 with
done=false; after completing N4 the next advance returns `(none, true)`. -/
theorem claim_C9_out_of_order_scenario :
    (c9adv1.1 = some (⟨1⟩, ()) ∧ c9adv1.2.1 = false) ∧
    (c9adv2.1 = some (⟨2⟩, ()) ∧ c9adv2.2.1 = false) ∧
    (c9adv3.1 = some (⟨3⟩, ()) ∧ c9adv3.2.1 = false) ∧
    (c9adv4.1 = some (⟨4⟩, ()) ∧ c9adv4.2.1 = false) ∧
    (c9adv5.1 = none ∧ c9adv5.2.1 = true) := by
  decide

set_option maxHeartbeats 4000000 in
set_option maxRecDepth 100000 in
/-- For every distance value in `[1, 256]` the source loop agrees with the
spec's truncated-and-capped sequence, whose length is exactly the cap. -/
theorem lookupDistancesLoop_eq_spec : ∀ td : ℕ, td < 257 → 1 ≤ td →
    lookupDistancesLoop td 1 300 [td] = specLookupDistances td ∧
      (specLookupDistances td).length = lookupRequestLimit := by
  decide

/-- C4 as amended: for distinct 256-bit identifiers, `lookupDistances`
returns the spec sequence `[td, td+1, td−1, …]` truncated to `(0, 256]`
and capped at three entries; in particular it has exactly three entries,
all within `(0, 256]`, and equals `[255, 256, 254]` when the distance is
255.  (The restriction `target ≠ dest` is forced: for `target = dest` the
seed distance 0 is emitted without being truncated.) -/
theorem claim_C4_lookup_distances (target dest : ℕ)
    (ht : target < 2 ^ 256) (hd : dest < 2 ^ 256) (hne : target ≠ dest) :
    lookupDistances target dest = specLookupDistances (logDist target dest) ∧
    (∀ d ∈ lookupDistances target dest, 0 < d ∧ d ≤ 256) ∧
    (lookupDistances target dest).length = lookupRequestLimit ∧
    (logDist target dest = 255 → lookupDistances target dest = [255, 256, 254]) := by
  have hx : target ^^^ dest < 2 ^ 256 := Nat.xor_lt_two_pow ht hd
  have hub : logDist target dest ≤ 256 := Nat.size_le.2 hx
  have hlb : 1 ≤ logDist target dest := by
    have : 0 < target ^^^ dest := by
      rcases Nat.eq_zero_or_pos (target ^^^ dest) with h | h
      · exact absurd (Nat.xor_eq_zero.1 h) hne
      · exact h
    exact Nat.size_pos.2 this
  have heq : lookupDistances target dest = specLookupDistances (logDist target dest) :=
    (lookupDistancesLoop_eq_spec (logDist target dest) (by omega) hlb).1
  refine ⟨heq, ?_, ?_, ?_⟩
  · intro d hmem
    rw [heq] at hmem
    have hf : d ∈ ([logDist target dest] ++
        (List.range 256).flatMap (fun j =>
          [logDist target dest + (j + 1), logDist target dest - (j + 1)])).filter
        (fun d => decide (0 < d) && decide (d ≤ 256)) :=
      List.take_subset _ _ hmem
    have := List.of_mem_filter hf
    simp only [Bool.and_eq_true, decide_eq_true_eq] at this
    exact this
  · rw [heq]
    exact (lookupDistancesLoop_eq_spec (logDist target dest) (by omega) hlb).2
  · intro h255
    rw [heq, h255]
    decide

/-- Witness for C4's amended statement at the concrete pair `(1, 0)`,
whose log-distance is 1. -/
theorem claim_C4_lookup_distances_witness :
    (1 : ℕ) < 2 ^ 256 ∧ (0 : ℕ) < 2 ^ 256 ∧ (1 : ℕ) ≠ 0 ∧
      (∀ d ∈ lookupDistances 1 0, 0 < d ∧ d ≤ 256) ∧
      (lookupDistances 1 0).length = lookupRequestLimit := by
  refine ⟨by norm_num, by norm_num, by norm_num, ?_, ?_⟩
  · exact (claim_C4_lookup_distances 1 0 (by norm_num) (by norm_num) (by norm_num)).2.1
  · exact (claim_C4_lookup_distances 1 0 (by norm_num) (by norm_num) (by norm_num)).2.2.1

/-- Counterexample to C4 as stated: for `target = dest` the distance is 0
and `lookupDistances` returns `[0, 1, 2]`, whose first element lies
outside `(0, 256]` (the seed entry is never truncated), diverging from the
spec sequence, which starts at 1. -/
theorem claim_C4_counterexample :
    lookupDistances 0 0 = [0, 1, 2] ∧
      ¬ (∀ d ∈ lookupDistances 0 0, 0 < d ∧ d ≤ 256) ∧
      lookupDistances 0 0 ≠ specLookupDistances (logDist 0 0) := by
  have h0 : logDist 0 0 = 0 := by simp [logDist]
  have hl : lookupDistances 0 0 = lookupDistancesLoop 0 1 300 [0] := by
    rw [lookupDistances, h0]
  refine ⟨by rw [hl]; decide, ?_, ?_⟩
  · intro h
    have := (h 0 (by rw [hl]; decide)).1
    exact absurd this (by decide)
  · rw [hl, h0]
    decide

/-- C7: the random route's buffer never exceeds 32 across init, nextNode,
add and addFoundNodes; nextNode removes exactly one entry from a
non-empty buffer and returns none on an empty one; add appends below
capacity and otherwise overwrites in place; addFoundNodes adds zero, one,
or two distinct-index nodes of the reply according to its size. -/
theorem claim_C7_random_route_buffer :
    (∀ (r : RandomState) (ns : List Node), ns.length ≤ randomRouteBuffer →
      (r.init ns).2.buf.length ≤ randomRouteBuffer) ∧
    (∀ (r : RandomState) (i : ℕ), r.buf = [] → r.nextNode i = (none, r)) ∧
    (∀ (r : RandomState) (i : ℕ), r.buf ≠ [] → i < r.buf.length →
      (r.nextNode i).1 = some (r.buf.getD i ⟨0⟩) ∧
        (r.nextNode i).2.buf = r.buf.eraseIdx i ∧
        (r.nextNode i).2.buf.length + 1 = r.buf.length) ∧
    (∀ (r : RandomState) (n : Node) (s : ℕ),
      (r.buf.length < randomRouteBuffer → (r.add n s).buf = r.buf ++ [n]) ∧
      (randomRouteBuffer ≤ r.buf.length → (r.add n s).buf = r.buf.set s n ∧
        (r.add n s).buf.length = r.buf.length) ∧
      (r.buf.length ≤ randomRouteBuffer → (r.add n s).buf.length ≤ randomRouteBuffer)) ∧
    (∀ (r : RandomState) (i1 i2 s1 s2 : ℕ), r.addFoundNodes [] i1 i2 s1 s2 = r) ∧
    (∀ (r : RandomState) (n : Node) (i1 i2 s1 s2 : ℕ),
      r.addFoundNodes [n] i1 i2 s1 s2 = r.add n s1) ∧
    (∀ (r : RandomState) (ns : List Node) (i1 i2 s1 s2 : ℕ), 2 ≤ ns.length →
      i1 < ns.length → i2 < ns.length → i1 ≠ i2 →
      (∀ x ∈ (r.addFoundNodes ns i1 i2 s1 s2).buf,
        x ∈ r.buf ∨ x = ns.getD i1 ⟨0⟩ ∨ x = ns.getD i2 ⟨0⟩) ∧
      (r.buf.length ≤ randomRouteBuffer →
        (r.addFoundNodes ns i1 i2 s1 s2).buf.length ≤ randomRouteBuffer) ∧
      (r.buf.length + 2 ≤ randomRouteBuffer →
        (r.addFoundNodes ns i1 i2 s1 s2).buf = r.buf ++ [ns.getD i1 ⟨0⟩, ns.getD i2 ⟨0⟩])) := by
  have hadd_mem : ∀ (r : RandomState) (n : Node) (s : ℕ) (x : Node),
      x ∈ (r.add n s).buf → x ∈ r.buf ∨ x = n := by
    intro r n s x hx
    rw [RandomState.add] at hx
    split at hx
    · rcases List.mem_append.1 hx with h | h
      · exact Or.inl h
      · exact Or.inr (List.mem_singleton.1 h)
    · exact List.mem_or_eq_of_mem_set hx
  have hadd_len : ∀ (r : RandomState) (n : Node) (s : ℕ),
      r.buf.length ≤ randomRouteBuffer → (r.add n s).buf.length ≤ randomRouteBuffer := by
    intro r n s hle
    rw [RandomState.add]
    split
    · simpa using by omega
    · simpa using hle
  refine ⟨?_, ?_, ?_, ?_, ?_, ?_, ?_⟩
  · intro r ns hns
    simpa [RandomState.init] using hns
  · intro r i hbuf
    simp [RandomState.nextNode, hbuf]
  · intro r i hbuf hi
    have hne : r.buf.isEmpty = false := by
      simp [List.isEmpty_iff, hbuf]
    refine ⟨?_, ?_, ?_⟩
    · rw [RandomState.nextNode, if_neg (by simp [hne])]
      simp [List.getElem?_eq_getElem hi, List.getD_eq_getElem r.buf ⟨0⟩ hi]
    · rw [RandomState.nextNode, if_neg (by simp [hne])]
    · rw [RandomState.nextNode, if_neg (by simp [hne])]
      simp only [List.length_eraseIdx, if_pos hi]
      omega
  · intro r n s
    refine ⟨?_, ?_, hadd_len r n s⟩
    · intro h
      rw [RandomState.add, if_pos h]
    · intro h
      rw [RandomState.add, if_neg (by omega)]
      simp
  · intro r i1 i2 s1 s2
    rfl
  · intro r n i1 i2 s1 s2
    rfl
  · intro r ns i1 i2 s1 s2 h2 hi1 hi2 hne
    match ns, h2 with
    | a :: b :: t, _ =>
      refine ⟨?_, ?_, ?_⟩
      · intro x hx
        rcases hadd_mem _ _ _ _ hx with hx1 | hx1
        · rcases hadd_mem _ _ _ _ hx1 with hx2 | hx2
          · exact Or.inl hx2
          · exact Or.inr (Or.inl hx2)
        · exact Or.inr (Or.inr hx1)
      · intro hle
        exact hadd_len _ _ _ (hadd_len _ _ _ hle)
      · intro hroom
        have h1 : (r.add ((a :: b :: t).getD i1 ⟨0⟩) s1).buf =
            r.buf ++ [(a :: b :: t).getD i1 ⟨0⟩] := by
          rw [RandomState.add, if_pos (by omega)]
        have hlen1 : (r.add ((a :: b :: t).getD i1 ⟨0⟩) s1).buf.length =
            r.buf.length + 1 := by
          rw [h1]; simp
        show ((r.add ((a :: b :: t).getD i1 ⟨0⟩) s1).add ((a :: b :: t).getD i2 ⟨0⟩) s2).buf = _
        rw [RandomState.add, if_pos (by omega), h1]
        simp

/-- Witness for C7 on concrete buffers: a two-entry buffer yields both the
append behaviour of add and the removal behaviour of nextNode, and a
two-node reply is appended whole. -/
theorem claim_C7_random_route_buffer_witness :
    ((RandomState.mk []).init [⟨1⟩, ⟨2⟩]).2.buf.length ≤ randomRouteBuffer ∧
    (RandomState.mk []).nextNode 0 = (none, ⟨[]⟩) ∧
    ((RandomState.mk [⟨1⟩, ⟨2⟩]).nextNode 1).1 = some ⟨2⟩ ∧
    ((RandomState.mk [⟨3⟩]).addFoundNodes [⟨1⟩, ⟨2⟩] 0 1 0 0).buf =
      [⟨3⟩] ++ [([⟨1⟩, ⟨2⟩] : List Node).getD 0 ⟨0⟩, ([⟨1⟩, ⟨2⟩] : List Node).getD 1 ⟨0⟩] := by
  refine ⟨?_, ?_, ?_, ?_⟩
  · exact (claim_C7_random_route_buffer).1 ⟨[]⟩ [⟨1⟩, ⟨2⟩] (by decide)
  · exact (claim_C7_random_route_buffer).2.1 ⟨[]⟩ 0 rfl
  · exact ((claim_C7_random_route_buffer).2.2.1 ⟨[⟨1⟩, ⟨2⟩]⟩ 1 (by decide) (by decide)).1
  · exact ((claim_C7_random_route_buffer).2.2.2.2.2.2 ⟨[⟨3⟩]⟩ [⟨1⟩, ⟨2⟩] 0 1 0 0
      (by decide) (by decide) (by decide) (by decide)).2.2 (by decide)

/-- Membership after add: an element of the new buffer was already there
or is the added node. -/
theorem RandomState.mem_add {r : RandomState} {n : Node} {s : ℕ} {x : Node}
    (hx : x ∈ (r.add n s).buf) : x ∈ r.buf ∨ x = n := by
  rw [RandomState.add] at hx
  split at hx
  · rcases List.mem_append.1 hx with h | h
    · exact Or.inl h
    · exact Or.inr (List.mem_singleton.1 h)
  · exact List.mem_or_eq_of_mem_set hx

/-- A valid index selects a member via getD. -/
theorem getD_mem_of_lt {ns : List Node} {i : ℕ} (h : i < ns.length) :
    ns.getD i ⟨0⟩ ∈ ns := by
  rw [List.getD_eq_getElem ns ⟨0⟩ h]
  exact List.getElem_mem h

/-- Membership after addFoundNodes with valid choices: an element of the
new buffer was already there or comes from the reply. -/
theorem RandomState.mem_addFoundNodes {r : RandomState} {ns : List Node}
    {i1 i2 s1 s2 : ℕ} (hch : 2 ≤ ns.length → i1 < ns.length ∧ i2 < ns.length ∧ i1 ≠ i2)
    {x : Node} (hx : x ∈ (r.addFoundNodes ns i1 i2 s1 s2).buf) :
    x ∈ r.buf ∨ x ∈ ns := by
  match ns, hch, hx with
  | [], _, hx => exact Or.inl hx
  | [n], _, hx =>
    rcases RandomState.mem_add hx with h | h
    · exact Or.inl h
    · exact Or.inr (h ▸ List.mem_singleton_self n)
  | a :: b :: t, hch, hx =>
    obtain ⟨h1, h2, _⟩ := hch (by simp)
    rcases RandomState.mem_add hx with h | h
    · rcases RandomState.mem_add h with h' | h'
      · exact Or.inl h'
      · exact Or.inr (h' ▸ getD_mem_of_lt h1)
    · exact Or.inr (h ▸ getD_mem_of_lt h2)

/-- The init phase preserves a route predicate. -/
theorem initStep_route_good {R : RouteSem ρ τ} {tab : Table} {P : ρ → Prop}
    (hpres : RoutePres R tab P) {w : Walk ρ} {b : Bool} {w1 : Walk ρ}
    (htab : w.tab = tab) (hP : P w.route) (h : InitStep R w (b, w1)) : P w1.route := by
  cases h with
  | already hw => exact hP
  | ok r' hw hi => exact hpres.pres_init _ _ _ hP (htab ▸ hi)
  | fail r' hw hi => exact hpres.pres_init _ _ _ hP (htab ▸ hi)

/-- Generic trace lemma: a route predicate that is preserved and forces
hops away from the local identifier holds in every reachable state, and
no emitted hop ever carries the local identifier. -/
theorem reachable_route_good {R : RouteSem ρ τ} {tab : Table} {r0 : ρ} {P : ρ → Prop}
    (hpres : RoutePres R tab P) (h0 : P r0) {s : Sys ρ τ}
    (hs : Reachable R tab r0 s) :
    P s.walk.route ∧ ∀ n ∈ s.hops, n.id ≠ tab.selfId := by
  induction hs with
  | refl => exact ⟨h0, by simp [initSys]⟩
  | tail hpre hstep ih =>
    obtain ⟨hProute, hhops⟩ := ih
    obtain ⟨htab, _, _, _, hself, _⟩ := reachable_inv hpre
    cases hstep with
    | adv out done w' hadv =>
      cases hadv with
      | initFail w1 hinit =>
        refine ⟨initStep_route_good hpres htab hProute hinit, ?_⟩
        simpa using hhops
      | throttled w1 hinit hl =>
        refine ⟨initStep_route_good hpres htab hProute hinit, ?_⟩
        simpa using hhops
      | hop w1 n t r' hinit hlt hnext =>
        have hP1 : P w1.route := initStep_route_good hpres htab hProute hinit
        refine ⟨hpres.pres_hop _ _ _ _ hP1 hnext, ?_⟩
        intro m hm
        simp only [Option.toList_some, List.map_cons, List.map_nil] at hm
        rcases List.mem_append.1 hm with h1 | h1
        · exact hhops m h1
        · have : m = n := by simpa using h1
          exact this ▸ hpres.hop_not_self _ _ _ _ hP1 hnext
      | noHop w1 t r' hinit hlt hnext =>
        have hP1 : P w1.route := initStep_route_good hpres htab hProute hinit
        refine ⟨hpres.pres_hop _ _ _ _ hP1 hnext, ?_⟩
        simpa using hhops
    | handle i hi e resp w' ev hrel =>
      obtain ⟨r', haddR, hout⟩ := hrel
      have hw' : w'.route = r' := by
        rw [congrArg (fun p => p.1.route) hout]
      refine ⟨?_, hhops⟩
      rw [hw']
      refine hpres.pres_add _ _ _ hProute ?_ haddR
      intro n hn
      have := (processResponse_novel_mem _ _ n hn).2
      intro hc
      exact this (hc ▸ hself)

/-- Membership after insertByDist: old entry or the inserted node. -/
theorem mem_insertByDist {targetId : ℕ} :
    ∀ {es : List Node} {n x : Node}, x ∈ insertByDist targetId es n → x ∈ es ∨ x = n := by
  intro es
  induction es with
  | nil => intro n x hx; exact Or.inr (List.mem_singleton.1 hx)
  | cons e es ih =>
    intro n x hx
    rw [insertByDist] at hx
    split at hx
    · rcases List.mem_cons.1 hx with h | h
      · exact Or.inr h
      · exact Or.inl h
    · rcases List.mem_cons.1 hx with h | h
      · exact Or.inl (h ▸ List.mem_cons_self e es)
      · rcases ih h with h' | h'
        · exact Or.inl (List.mem_cons_of_mem e h')
        · exact Or.inr h'

/-- Membership after push: old entry or the pushed node. -/
theorem mem_push {targetId k : ℕ} {es : List Node} {n x : Node}
    (hx : x ∈ push targetId k es n) : x ∈ es ∨ x = n := by
  rw [push] at hx
  split at hx
  · exact Or.inl hx
  · exact mem_insertByDist (List.take_subset _ _ hx)

/-- Membership after folding push over a reply: old entry or reply node. -/
theorem mem_foldl_push (targetId k : ℕ) :
    ∀ (ns es : List Node) (x : Node),
      x ∈ ns.foldl (fun es n => push targetId k es n) es → x ∈ es ∨ x ∈ ns := by
  intro ns
  induction ns with
  | nil => intro es x hx; exact Or.inl hx
  | cons n rest ih =>
    intro es x hx
    rcases ih (push targetId k es n) x hx with h | h
    · rcases mem_push h with h' | h'
      · exact Or.inl h'
      · exact Or.inr (h' ▸ List.mem_cons_self n rest)
    · exact Or.inr (List.mem_cons_of_mem n h)

/-- The lookup route keeps its entries away from the local identifier when
the table never reports it. -/
theorem lookup_routePres (tab : Table) (reports : Node → Prop)
    (hrep : ∀ n, reports n → n.id ≠ tab.selfId) :
    RoutePres (lookupSem reports) tab (fun l => ∀ n ∈ l.entries, n.id ≠ tab.selfId) := by
  refine ⟨?_, ?_, ?_, ?_⟩
  · intro l ok l' hP hinit
    obtain ⟨closest, hcl, _, hout⟩ := hinit
    have hl' : l' = (lookupInit l closest).2 := congrArg Prod.snd hout
    rw [lookupInit] at hl'
    split at hl'
    · exact hl' ▸ hP
    · rw [hl']
      intro n hn
      exact hrep n (hcl n hn)
  · intro l n t l' hP hnext
    have hl' : l' = (lookupNextHop l).2.2 := congrArg (fun p => p.2.2) hnext
    rw [lookupNextHop] at hl'
    rcases hfind : l.entries.find? (fun n => decide (n.id ∉ l.asked)) with _ | m
    · rw [hfind] at hl'
      exact hl' ▸ hP
    · rw [hfind] at hl'
      rw [hl']
      exact hP
  · intro l m t l' hP hnext
    have hfst : (some m : Option Node) = (lookupNextHop l).1 := congrArg Prod.fst hnext
    rw [lookupNextHop] at hfst
    rcases hfind : l.entries.find? (fun n => decide (n.id ∉ l.asked)) with _ | n
    · rw [hfind] at hfst
      simp at hfst
    · rw [hfind] at hfst
      have hm : m = n := by simpa using hfst
      exact hm ▸ hP n (List.mem_of_find?_eq_some hfind)
  · intro l ns l' hP hns haddR
    rw [haddR, lookupAddFoundNodes]
    intro n hn
    rcases mem_foldl_push l.targetId bucketSize ns l.entries n hn with h | h
    · exact hP n h
    · exact hns n h

/-- The v4 random route keeps its buffer away from the local identifier
when the table never reports it. -/
theorem randomV4_routePres (tab : Table) (reports : Node → Prop)
    (hrep : ∀ n, reports n → n.id ≠ tab.selfId) :
    RoutePres (randomSemV4 reports) tab (fun r => ∀ n ∈ r.buf, n.id ≠ tab.selfId) := by
  refine ⟨?_, ?_, ?_, ?_⟩
  · intro r ok r' hP hinit
    obtain ⟨ns, hns, _, hout⟩ := hinit
    have hr' : r' = (r.init ns).2 := congrArg Prod.snd hout
    rw [hr']
    intro n hn
    exact hrep n (hns n hn)
  · intro r n t r' hP hnext
    obtain ⟨i, t', hvalid, hout⟩ := hnext
    have hr' : r' = (r.nextNode i).2 := congrArg (fun p => p.2.2) hout
    rw [RandomState.nextNode] at hr'
    split at hr'
    · exact hr' ▸ hP
    · rw [hr']
      intro m hm
      exact hP m (List.eraseIdx_subset _ _ hm)
  · intro r m t r' hP hnext
    obtain ⟨i, t', hvalid, hout⟩ := hnext
    have hfst : (some m : Option Node) = (r.nextNode i).1 := congrArg Prod.fst hout
    rw [RandomState.nextNode] at hfst
    split at hfst
    · simp at hfst
    · have hmem : m ∈ r.buf := by
        obtain ⟨hlt, hEq⟩ := List.getElem?_eq_some_iff.1 hfst.symm
        exact hEq ▸ List.getElem_mem hlt
      exact hP m hmem
  · intro r ns r' hP hns haddR
    obtain ⟨i1, i2, s1, s2, hch, hr'⟩ := haddR
    rw [hr']
    intro n hn
    rcases RandomState.mem_addFoundNodes hch hn with h | h
    · exact hP n h
    · exact hns n h

/-- The v5 random route keeps its buffer away from the local identifier
when the table never reports it. -/
theorem randomV5_routePres (tab : Table) (reports : Node → Prop)
    (hrep : ∀ n, reports n → n.id ≠ tab.selfId) :
    RoutePres (randomSemV5 reports) tab (fun r => ∀ n ∈ r.buf, n.id ≠ tab.selfId) := by
  refine ⟨?_, ?_, ?_, ?_⟩
  · intro r ok r' hP hinit
    obtain ⟨ns, hns, _, hout⟩ := hinit
    have hr' : r' = (r.init ns).2 := congrArg Prod.snd hout
    rw [hr']
    intro n hn
    exact hrep n (hns n hn)
  · intro r n t r' hP hnext
    obtain ⟨i, hvalid, hout⟩ := hnext
    have hr' : r' = (r.nextNode i).2 := congrArg (fun p => p.2.2) hout
    rw [RandomState.nextNode] at hr'
    split at hr'
    · exact hr' ▸ hP
    · rw [hr']
      intro m hm
      exact hP m (List.eraseIdx_subset _ _ hm)
  · intro r m t r' hP hnext
    obtain ⟨i, hvalid, hout⟩ := hnext
    have hfst : (some m : Option Node) = (r.nextNode i).1 := congrArg Prod.fst hout
    rw [RandomState.nextNode] at hfst
    split at hfst
    · simp at hfst
    · have hmem : m ∈ r.buf := by
        obtain ⟨hlt, hEq⟩ := List.getElem?_eq_some_iff.1 hfst.symm
        exact hEq ▸ List.getElem_mem hlt
      exact hP m hmem
  · intro r ns r' hP hns haddR
    obtain ⟨i1, i2, s1, s2, hch, hr'⟩ := haddR
    rw [hr']
    intro n hn
    rcases RandomState.mem_addFoundNodes hch hn with h | h
    · exact hP n h
    · exact hns n h

/-- C6: over a table that never reports the local node, the lookup route
and both random routes never return the local node as a hop, and (for any
route at all, these included) the local node is never in the novel list
forwarded to `addFoundNodes`, even when it appears in a response. -/
theorem claim_C6_local_node_never_hop (tab : Table) (reports : Node → Prop)
    (hrep : ∀ n, reports n → n.id ≠ tab.selfId) :
    (∀ (t tid : ℕ) (s : Sys LookupState ℕ),
      Reachable (lookupSem reports) tab ⟨t, tid, [], ∅⟩ s →
        (∀ n ∈ s.hops, n.id ≠ tab.selfId) ∧ ∀ n ∈ s.forwarded, n.id ≠ tab.selfId) ∧
    (∀ s : Sys RandomState ℕ,
      Reachable (randomSemV4 reports) tab ⟨[]⟩ s →
        (∀ n ∈ s.hops, n.id ≠ tab.selfId) ∧ ∀ n ∈ s.forwarded, n.id ≠ tab.selfId) ∧
    (∀ s : Sys RandomState (List ℕ),
      Reachable (randomSemV5 reports) tab ⟨[]⟩ s →
        (∀ n ∈ s.hops, n.id ≠ tab.selfId) ∧ ∀ n ∈ s.forwarded, n.id ≠ tab.selfId) := by
  refine ⟨?_, ?_, ?_⟩
  · intro t tid s hs
    refine ⟨(reachable_route_good (lookup_routePres tab reports hrep) (by simp) hs).2, ?_⟩
    obtain ⟨_, _, _, _, _, _, _, hfwself, _⟩ := reachable_inv hs
    exact hfwself
  · intro s hs
    refine ⟨(reachable_route_good (randomV4_routePres tab reports hrep) (by simp) hs).2, ?_⟩
    obtain ⟨_, _, _, _, _, _, _, hfwself, _⟩ := reachable_inv hs
    exact hfwself
  · intro s hs
    refine ⟨(reachable_route_good (randomV5_routePres tab reports hrep) (by simp) hs).2, ?_⟩
    obtain ⟨_, _, _, _, _, _, _, hfwself, _⟩ := reachable_inv hs
    exact hfwself

/-- Witness for C6 at a concrete table, report predicate and reachable
state. -/
theorem claim_C6_local_node_never_hop_witness :
    (∀ n ∈ (initSys (ρ := LookupState) (τ := ℕ) ⟨0⟩ ⟨5, 5, [], ∅⟩).hops,
      n.id ≠ (Table.mk 0).selfId) ∧
    ∀ n ∈ (initSys (ρ := LookupState) (τ := ℕ) ⟨0⟩ ⟨5, 5, [], ∅⟩).forwarded,
      n.id ≠ (Table.mk 0).selfId :=
  (claim_C6_local_node_never_hop ⟨0⟩ (fun n => n.id ≠ 0) (fun _ h => h)).1 5 5 _
    Relation.ReflTransGen.refl

end DiscoverWalk

